import Mathlib

set_option maxRecDepth 100000

/-!
Verification of the unraid-filehasher core: a shallow embedding of the
catalog store (internal/db/db.go), the hashing pool (internal/hasher),
the file walker (internal/scanner), the verifier (internal/verifier)
and the scan reconciler with move detection (cmd scanCmd), together
with theorems settling the specification claims.

Machine integers (Go int64) are modelled as Int, timestamps as Nat,
the SQLite `files` table (UNIQUE path) as a `List FileRecord`, and
SQL statements as the corresponding pure list transformations.
-/

namespace FileHasher

/-- `db.FileRecord`: one row of the `files` table.  The SQLite
autoincrement `ID` column is omitted: no operation or claim reads it. -/
structure FileRecord where
  path : String
  disk : String
  size : Int
  mtime : Int
  sha256 : String
  firstSeen : Nat
  lastVerified : Nat
  status : String
  deriving DecidableEq, Repr

/-- `db.QuickLookup`: minimal per-path info for incremental comparison. -/
structure QuickLookup where
  size : Int
  mtime : Int
  sha256 : String
  deriving DecidableEq, Repr

/-- `db.UpsertFileTx`: `INSERT ... ON CONFLICT(path) DO UPDATE SET disk,
size, mtime, sha256, last_verified, status` — on conflict every column of
the excluded row is copied except `first_seen` (and the id). -/
def UpsertFileTx (catalog : List FileRecord) (f : FileRecord) : List FileRecord :=
  if catalog.any (fun r => r.path == f.path) then
    catalog.map (fun r =>
      if r.path == f.path then
        { r with disk := f.disk, size := f.size, mtime := f.mtime,
                 sha256 := f.sha256, lastVerified := f.lastVerified,
                 status := f.status }
      else r)
  else
    catalog ++ [f]

/-- `db.UpdateStatusTx`: `UPDATE files SET status = ?, last_verified =
CURRENT_TIMESTAMP WHERE path = ?`. -/
def UpdateStatusTx (catalog : List FileRecord) (path status : String)
    (now : Nat) : List FileRecord :=
  catalog.map (fun r =>
    if r.path == path then { r with status := status, lastVerified := now }
    else r)

/-- `db.MovePathTx`: delete any record already sitting at `newPath`, then
`UPDATE files SET path, disk, size, mtime, last_verified, status = 'ok'
WHERE path = oldPath`. -/
def MovePathTx (catalog : List FileRecord) (oldPath newPath newDisk : String)
    (newSize newMtime : Int) (now : Nat) : List FileRecord :=
  let cleaned := catalog.filter (fun r => !(r.path == newPath))
  cleaned.map (fun r =>
    if r.path == oldPath then
      { r with path := newPath, disk := newDisk, size := newSize,
               mtime := newMtime, lastVerified := now, status := "ok" }
    else r)

/-- `db.LoadQuickLookupMap`: path-keyed map of `{size, mtime, sha256}`. -/
def LoadQuickLookupMap (catalog : List FileRecord) :
    String → Option QuickLookup :=
  fun p => (catalog.find? (fun r => r.path == p)).map
    (fun r => ⟨r.size, r.mtime, r.sha256⟩)

/-- Descending insertion by `last_verified` (models `ORDER BY
last_verified DESC`). -/
def insertByLastVerifiedDesc (r : FileRecord) :
    List FileRecord → List FileRecord
  | [] => [r]
  | x :: xs =>
    if r.lastVerified ≤ x.lastVerified then x :: insertByLastVerifiedDesc r xs
    else r :: x :: xs

/-- Sort a record list by `last_verified`, most recent first. -/
def sortByLastVerifiedDesc : List FileRecord → List FileRecord
  | [] => []
  | x :: xs => insertByLastVerifiedDesc x (sortByLastVerifiedDesc xs)

/-- Suffix test on strings (the semantics of SQL `LIKE '%suffix'`). -/
def strEndsWith (s suffix : String) : Bool :=
  suffix.data.isSuffixOf s.data

/-- `db.FindMoveCandidates`: `SELECT ... WHERE size = ? AND path LIKE
'%/'||basename ORDER BY last_verified DESC LIMIT ?`, with a non-positive
limit defaulting to 20. -/
def FindMoveCandidates (catalog : List FileRecord) (baseName : String)
    (size : Int) (limit : Int) : List FileRecord :=
  let lim := if limit ≤ 0 then (20 : Int) else limit
  (sortByLastVerifiedDesc (catalog.filter
    (fun r => r.size == size && strEndsWith r.path ("/" ++ baseName)))).take lim.toNat

/-- Split a character list at every separator occurrence. -/
def splitOnChar (sep : Char) : List Char → List (List Char)
  | [] => [[]]
  | x :: xs =>
    match splitOnChar sep xs with
    | [] => [[]]
    | y :: ys => if x == sep then [] :: y :: ys else (x :: y) :: ys

/-- Go `filepath.Base` for the slash-separated paths the walker emits. -/
def filepathBase (p : String) : String :=
  String.mk ((splitOnChar (Char.ofNat 47) p.data).getLastD p.data)

/-- `hasher.New`: a worker count of zero or less becomes 1. -/
structure Hasher where
  workers : Int
  deriving DecidableEq, Repr

namespace hasher

def New (workers : Int) : Hasher :=
  if workers ≤ 0 then { workers := 1 } else { workers := workers }

end hasher

/-- `verifier.New`: a worker count of zero or less becomes 4.  The
database handle carries no function-relevant state and is omitted. -/
structure Verifier where
  workers : Int
  quick : Bool
  deriving DecidableEq, Repr

namespace verifier

def New (workers : Int) (quick : Bool) : Verifier :=
  if workers ≤ 0 then { workers := 4, quick := quick }
  else { workers := workers, quick := quick }

end verifier

/-- Outcome of an `os.Stat` call, as the verifier feeder and the move
detector distinguish them: success (with size and mtime), a
`os.IsNotExist` error, or any other error. -/
inductive StatOutcome where
  | found (size mtime : Int)
  | notExist
  | otherErr
  deriving DecidableEq, Repr

/-- `verifier.VerifyResult`: the per-file callback record.  The Go `error`
value is modelled as an optional message. -/
structure VerifyResult where
  path : String
  status : String
  oldHash : String
  newHash : String
  err : Option String
  deriving DecidableEq, Repr

/-- `verifier.Summary` (without the wall-clock duration). -/
structure Summary where
  totalChecked : Nat
  ok : Nat
  corrupted : Nat
  missing : Nat
  skipped : Nat
  errors : Nat
  deriving DecidableEq, Repr

/-- State threaded through `verifier.verifyFiles`: the catalog the batch
writer mutates, the summary counters, and the emitted callbacks. -/
structure VerifyState where
  catalog : List FileRecord
  summary : Summary
  callbacks : List VerifyResult
  deriving DecidableEq, Repr

/-- What the feeder goroutine of `verifier.verifyFiles` decides per file. -/
inductive FeedOutcome where
  | missing
  | dropped
  | skippedQuick
  | toHash
  deriving DecidableEq, Repr

/-- The feeder of `verifier.verifyFiles` (verifier.go lines 96-120):
stat the path; `IsNotExist` marks the file missing, any other stat error
drops it silently, quick mode skips exact size/mtime matches, and the
rest is sent to the hashing pool. -/
def verifyFeedDecision (stat : String → StatOutcome) (quick : Bool)
    (f : FileRecord) : FeedOutcome :=
  match stat f.path with
  | .notExist => .missing
  | .otherErr => .dropped
  | .found size mtime =>
    if quick && mtime == f.mtime && size == f.size then .skippedQuick
    else .toHash

/-- One file's contribution to `verifier.verifyFiles` (lines 130-198):
classification, summary counters, the status write and the callback.
`hashFn` is the hashing pool's digest computation for a path. -/
def verifyStep (stat : String → StatOutcome)
    (hashFn : String → Except String String) (quick : Bool) (now : Nat)
    (st : VerifyState) (f : FileRecord) : VerifyState :=
  match verifyFeedDecision stat quick f with
  | .dropped => st
  | .skippedQuick =>
    { st with summary := { st.summary with skipped := st.summary.skipped + 1 } }
  | .missing =>
    { catalog := UpdateStatusTx st.catalog f.path "missing" now,
      summary := { st.summary with
        totalChecked := st.summary.totalChecked + 1,
        missing := st.summary.missing + 1 },
      callbacks := st.callbacks ++
        [{ path := f.path, status := "missing", oldHash := f.sha256,
           newHash := "", err := none }] }
  | .toHash =>
    match hashFn f.path with
    | .error e =>
      { catalog := UpdateStatusTx st.catalog f.path "corrupted" now,
        summary := { st.summary with
          totalChecked := st.summary.totalChecked + 1,
          corrupted := st.summary.corrupted + 1,
          errors := st.summary.errors + 1 },
        callbacks := st.callbacks ++
          [{ path := f.path, status := "corrupted", oldHash := f.sha256,
             newHash := "", err := some e }] }
    | .ok d =>
      if d == f.sha256 then
        { catalog := UpdateStatusTx st.catalog f.path "ok" now,
          summary := { st.summary with
            totalChecked := st.summary.totalChecked + 1,
            ok := st.summary.ok + 1 },
          callbacks := st.callbacks ++
            [{ path := f.path, status := "ok", oldHash := f.sha256,
               newHash := d, err := none }] }
      else
        { catalog := UpdateStatusTx st.catalog f.path "corrupted" now,
          summary := { st.summary with
            totalChecked := st.summary.totalChecked + 1,
            corrupted := st.summary.corrupted + 1 },
          callbacks := st.callbacks ++
            [{ path := f.path, status := "corrupted", oldHash := f.sha256,
               newHash := d, err := none }] }

/-- `verifier.verifyFiles` over a stored-record list: the pool's output
order is irrelevant to every per-file classification, so the concurrent
pipeline is sequentialised in feeder order. -/
def verifyFiles (stat : String → StatOutcome)
    (hashFn : String → Except String String) (quick : Bool) (now : Nat)
    (catalog : List FileRecord) (files : List FileRecord) : VerifyState :=
  files.foldl (verifyStep stat hashFn quick now)
    { catalog := catalog,
      summary := { totalChecked := 0, ok := 0, corrupted := 0, missing := 0,
                   skipped := 0, errors := 0 },
      callbacks := [] }

/-- `hasher.Result`: the hashing pool's per-file output. -/
structure HashResult where
  path : String
  disk : String
  size : Int
  mtime : Int
  sha256 : String
  err : Option String
  deriving DecidableEq, Repr

/-- What the move-detection candidate loop decides. -/
inductive MoveOutcome where
  | moved (candPath : String)
  | corrupt (candPath : String)
  | fresh
  deriving DecidableEq, Repr

/-- The candidate loop of `scanCmd` (cmd source lines 303-333): skip a
candidate equal to the new path, skip candidates whose own path still
exists or whose stat fails with a non-IsNotExist error; the first
candidate whose old path is gone decides — equal digest is a confirmed
move, a differing digest is suspected move corruption. -/
def moveDetectLoop (stat : String → StatOutcome) (newPath newSha : String) :
    List FileRecord → MoveOutcome
  | [] => .fresh
  | cand :: rest =>
    if cand.path == newPath then moveDetectLoop stat newPath newSha rest
    else
      match stat cand.path with
      | .found _ _ => moveDetectLoop stat newPath newSha rest
      | .otherErr => moveDetectLoop stat newPath newSha rest
      | .notExist =>
        if cand.sha256 == newSha then .moved cand.path
        else .corrupt cand.path

/-- State threaded through `scanCmd`'s result loop. -/
structure ScanState where
  catalog : List FileRecord
  totalProcessed : Nat
  totalErrors : Nat
  moveWarnings : List (String × String)
  deriving DecidableEq, Repr

/-- One iteration of `scanCmd`'s result loop (cmd source lines 273-343):
count the result; an errored result is only counted; otherwise build the
ok record; move detection runs only when the incremental lookup map is
loaded and lacks the result's path; a confirmed move re-keys instead of
upserting, a suspected move corruption upserts with status corrupted and
records a loud warning, and everything else is a plain upsert. -/
def processScanResult (stat : String → StatOutcome)
    (lookupMap : Option (String → Option QuickLookup)) (now : Nat)
    (st : ScanState) (result : HashResult) : ScanState :=
  let st1 := { st with totalProcessed := st.totalProcessed + 1 }
  match result.err with
  | some _ => { st1 with totalErrors := st1.totalErrors + 1 }
  | none =>
    let record : FileRecord :=
      { path := result.path, disk := result.disk, size := result.size,
        mtime := result.mtime, sha256 := result.sha256, firstSeen := now,
        lastVerified := now, status := "ok" }
    match lookupMap with
    | none => { st1 with catalog := UpsertFileTx st1.catalog record }
    | some m =>
      match m result.path with
      | some _ => { st1 with catalog := UpsertFileTx st1.catalog record }
      | none =>
        match moveDetectLoop stat result.path result.sha256
            (FindMoveCandidates st1.catalog (filepathBase result.path)
              result.size 20) with
        | .moved candPath =>
          { st1 with catalog := (MovePathTx st1.catalog candPath result.path
              result.disk result.size result.mtime now) }
        | .corrupt candPath =>
          { st1 with
              catalog := UpsertFileTx st1.catalog
                { record with status := "corrupted" },
              moveWarnings := st1.moveWarnings ++ [(candPath, result.path)] }
        | .fresh => { st1 with catalog := UpsertFileTx st1.catalog record }

/-- `scanCmd`'s result loop over a whole result stream. -/
def runScanResults (stat : String → StatOutcome)
    (lookupMap : Option (String → Option QuickLookup)) (now : Nat)
    (st : ScanState) (results : List HashResult) : ScanState :=
  results.foldl (processScanResult stat lookupMap now) st

/-! SHA-256 (Go `crypto/sha256` as `HashFile` streams bytes through it),
on 32-bit words represented as `Nat` reduced mod 2^32. -/

def w32 (n : Nat) : Nat := n % 4294967296

def rotr32 (n w : Nat) : Nat := w32 ((w >>> n) ||| (w <<< (32 - n)))

def shaCh (x y z : Nat) : Nat := (x &&& y) ^^^ ((x ^^^ 4294967295) &&& z)

def shaMaj (x y z : Nat) : Nat := (x &&& y) ^^^ (x &&& z) ^^^ (y &&& z)

def bigSigma0 (x : Nat) : Nat := rotr32 2 x ^^^ rotr32 13 x ^^^ rotr32 22 x

def bigSigma1 (x : Nat) : Nat := rotr32 6 x ^^^ rotr32 11 x ^^^ rotr32 25 x

def smallSigma0 (x : Nat) : Nat := rotr32 7 x ^^^ rotr32 18 x ^^^ (x >>> 3)

def smallSigma1 (x : Nat) : Nat := rotr32 17 x ^^^ rotr32 19 x ^^^ (x >>> 10)

def K256 : List Nat :=
  [1116352408, 1899447441, 3049323471, 3921009573, 961987163,
   1508970993, 2453635748, 2870763221, 3624381080, 310598401,
   607225278, 1426881987, 1925078388, 2162078206, 2614888103,
   3248222580, 3835390401, 4022224774, 264347078, 604807628,
   770255983, 1249150122, 1555081692, 1996064986, 2554220882,
   2821834349, 2952996808, 3210313671, 3336571891, 3584528711,
   113926993, 338241895, 666307205, 773529912, 1294757372,
   1396182291, 1695183700, 1986661051, 2177026350, 2456956037,
   2730485921, 2820302411, 3259730800, 3345764771, 3516065817,
   3600352804, 4094571909, 275423344, 430227734, 506948616,
   659060556, 883997877, 958139571, 1322822218, 1537002063,
   1747873779, 1955562222, 2024104815, 2227730452, 2361852424,
   2428436474, 2756734187, 3204031479, 3329325298]

structure SHAState where
  a : Nat
  b : Nat
  c : Nat
  d : Nat
  e : Nat
  f : Nat
  g : Nat
  h : Nat
  deriving DecidableEq, Repr

def shaInit : SHAState :=
  ⟨1779033703, 3144134277, 1013904242, 2773480762,
   1359893119, 2600822924, 528734635, 1541459225⟩

/-- 4 bytes big-endian to one 32-bit word, over a whole block. -/
def bytesToWords : List Nat → List Nat
  | b0 :: b1 :: b2 :: b3 :: rest =>
    (((b0 * 256 + b1) * 256 + b2) * 256 + b3) :: bytesToWords rest
  | _ => []

/-- Message-schedule extension, accumulating words most recent first. -/
def extendW : Nat → List Nat → List Nat
  | 0, ws => ws
  | n + 1, ws =>
    extendW n ((w32 (smallSigma1 (ws.getD 1 0) + ws.getD 6 0
      + smallSigma0 (ws.getD 14 0) + ws.getD 15 0)) :: ws)

def compressRound (st : SHAState) (kw : Nat × Nat) : SHAState :=
  let t1 := w32 (st.h + bigSigma1 st.e + shaCh st.e st.f st.g + kw.2 + kw.1)
  let t2 := w32 (bigSigma0 st.a + shaMaj st.a st.b st.c)
  ⟨w32 (t1 + t2), st.a, st.b, st.c, w32 (st.d + t1), st.e, st.f, st.g⟩

def processBlock (st : SHAState) (block : List Nat) : SHAState :=
  let ws := (extendW 48 (bytesToWords block).reverse).reverse
  let r := (ws.zip K256).foldl compressRound st
  ⟨w32 (st.a + r.a), w32 (st.b + r.b), w32 (st.c + r.c), w32 (st.d + r.d),
   w32 (st.e + r.e), w32 (st.f + r.f), w32 (st.g + r.g), w32 (st.h + r.h)⟩

/-- Stream the (already padded) message through the compression,
64-byte block at a time. -/
def sha256Blocks (st : SHAState) (buf : List Nat) : List Nat → SHAState
  | [] => st
  | b :: bs =>
    if buf.length = 63 then sha256Blocks (processBlock st (buf ++ [b])) [] bs
    else sha256Blocks st (buf ++ [b]) bs

def beBytes8 (n : Nat) : List Nat :=
  [(n >>> 56) % 256, (n >>> 48) % 256, (n >>> 40) % 256, (n >>> 32) % 256,
   (n >>> 24) % 256, (n >>> 16) % 256, (n >>> 8) % 256, n % 256]

/-- Append the 0x80 byte, zero padding to 56 mod 64, and the 64-bit
big-endian bit length. -/
def sha256Pad (msg : List Nat) : List Nat :=
  let len := msg.length
  let zeros := (120 - (len + 1) % 64) % 64
  msg ++ [128] ++ List.replicate zeros 0 ++ beBytes8 (len * 8)

def wordBEBytes (n : Nat) : List Nat :=
  [(n >>> 24) % 256, (n >>> 16) % 256, (n >>> 8) % 256, n % 256]

def sha256Bytes (msg : List Nat) : List Nat :=
  let st := sha256Blocks shaInit [] (sha256Pad msg)
  wordBEBytes st.a ++ wordBEBytes st.b ++ wordBEBytes st.c ++ wordBEBytes st.d
    ++ wordBEBytes st.e ++ wordBEBytes st.f ++ wordBEBytes st.g
    ++ wordBEBytes st.h

def hexDigitChar (n : Nat) : Char :=
  Char.ofNat (if n < 10 then 48 + n else 87 + n)

def byteHex (b : Nat) : List Char :=
  [hexDigitChar (b / 16), hexDigitChar (b % 16)]

/-- `hex.EncodeToString(h.Sum(nil))`: the lowercase hex digest. -/
def sha256Hex (msg : List Nat) : String :=
  String.mk (((sha256Bytes msg).map byteHex).flatten)

/-- UTF-8 bytes of an ASCII string. -/
def asciiBytes (s : String) : List Nat := s.data.map Char.toNat

/-! The hashing pool: internal/hasher/hasher.go. -/

/-- `hasher.FileInfo`: the pool input. -/
structure FileInfo where
  path : String
  disk : String
  size : Int
  mtime : Int
  deriving DecidableEq, Repr

/-- A file in the filesystem snapshot: the bytes `os.Open` + reads
deliver, the `os.Stat` size/mtime, and whether the path is a directory.
`none` from the snapshot function models an open error. -/
structure FSFile where
  bytes : List Nat
  size : Int
  mtime : Int
  isDir : Bool
  deriving DecidableEq, Repr

/-- `hasher.HashFile`: open, stat, reject directories, stream the bytes
through SHA-256; the result carries the freshly stat'd size/mtime. -/
def HashFile (fs : String → Option FSFile) (path : String) :
    Except String HashResult :=
  match fs path with
  | none => .error ("open " ++ path)
  | some f =>
    if f.isDir then .error (path ++ " is a directory")
    else .ok { path := path, disk := "", size := f.size, mtime := f.mtime,
               sha256 := sha256Hex f.bytes, err := none }

/-- `hasher.hashFileWithInfo`: open and hash, carrying the caller's
size/mtime through instead of re-statting. -/
def hashFileWithInfo (fs : String → Option FSFile) (fi : FileInfo) :
    Except String HashResult :=
  match fs fi.path with
  | none => .error ("open " ++ fi.path)
  | some f =>
    if f.isDir then .error ("hash " ++ fi.path)
    else .ok { path := fi.path, disk := fi.disk, size := fi.size,
               mtime := fi.mtime, sha256 := sha256Hex f.bytes, err := none }

/-- One worker iteration of `hasher.HashFiles`: pre-existing stat info
(size or mtime positive) routes to `hashFileWithInfo`, otherwise
`HashFile`; an error becomes a result carrying only path, disk and the
error. -/
def hashWorkerStep (fs : String → Option FSFile) (fi : FileInfo) :
    HashResult :=
  if fi.size > 0 ∨ fi.mtime > 0 then
    match hashFileWithInfo fs fi with
    | .ok r => r
    | .error e => { path := fi.path, disk := fi.disk, size := 0, mtime := 0,
                    sha256 := "", err := some e }
  else
    match HashFile fs fi.path with
    | .ok r => { r with disk := fi.disk }
    | .error e => { path := fi.path, disk := fi.disk, size := 0, mtime := 0,
                    sha256 := "", err := some e }

/-- `hasher.HashFiles` produces exactly one result per input; output
order is irrelevant downstream, so the pool is sequentialised. -/
def HashFiles (fs : String → Option FSFile) (fis : List FileInfo) :
    List HashResult :=
  fis.map (hashWorkerStep fs)

/-! The incremental filter of `scanCmd` (cmd source lines 242-254). -/

/-- True when the lookup map is loaded and holds the descriptor's path
with identical size and mtime. -/
def shouldSkipIncremental (lookupMap : Option (String → Option QuickLookup))
    (fi : FileInfo) : Bool :=
  match lookupMap with
  | none => false
  | some m =>
    match m fi.path with
    | some existing => existing.size == fi.size && existing.mtime == fi.mtime
    | none => false

/-- The interposed filter between Walker and Hashing Pool: forwarded
descriptors, and the skipped count. -/
def incrementalFilter (lookupMap : Option (String → Option QuickLookup))
    (fis : List FileInfo) : List FileInfo × Nat :=
  (fis.filter (fun fi => !(shouldSkipIncremental lookupMap fi)),
   fis.countP (fun fi => shouldSkipIncremental lookupMap fi))

/-! The file walker: internal/scanner/scanner.go `Walk`, over a
filesystem snapshot tree. -/

mutual
/-- A snapshot directory-tree entry: a regular file (with size and
mtime), a non-regular entry (symlink, device, socket), or a directory. -/
inductive FSEntry where
  | file (name : String) (size : Int) (mtime : Int) : FSEntry
  | special (name : String) : FSEntry
  | dir (name : String) (children : FSList) : FSEntry
inductive FSList where
  | nil : FSList
  | cons (e : FSEntry) (rest : FSList) : FSList
end

def entryName : FSEntry → String
  | .file n _ _ => n
  | .special n => n
  | .dir n _ => n

mutual
/-- `scanner.Walk` at one entry whose full path is `path`: a directory
matching an exclusion pattern is pruned with its whole subtree
(`filepath.SkipDir`) before descending; non-regular entries are skipped;
a file is skipped when it matches an exclusion pattern or is zero-byte,
and emitted with its stat info otherwise. -/
def walkEntry (excl : List (String → Bool)) (disk : String)
    (path : String) : FSEntry → List FileInfo
  | .file _ size mtime =>
    if excl.any (fun re => re path) then []
    else if size == 0 then []
    else [{ path := path, disk := disk, size := size, mtime := mtime }]
  | .special _ => []
  | .dir _ children =>
    if excl.any (fun re => re path) then []
    else walkList excl disk path children
/-- `scanner.Walk` over a directory's children, in order. -/
def walkList (excl : List (String → Bool)) (disk : String)
    (parent : String) : FSList → List FileInfo
  | .nil => []
  | .cons e rest =>
    walkEntry excl disk (parent ++ "/" ++ entryName e) e
      ++ walkList excl disk parent rest
end

/-- Membership in a snapshot child list. -/
inductive FSMem : FSEntry → FSList → Prop
  | head (e : FSEntry) (rest : FSList) : FSMem e (.cons e rest)
  | tail (e x : FSEntry) (rest : FSList) :
      FSMem e rest → FSMem e (.cons x rest)

/-- The specification side of claim C7, following the spec's words: a
descriptor is emitted from an entry exactly when it comes from a REGULAR
file, reachable through directories none of which matches an exclusion
pattern (so an excluded directory prunes its entire subtree), whose own
path matches no exclusion pattern and whose size is not zero. -/
inductive EmitsFrom (excl : List (String → Bool)) (disk : String) :
    String → FSEntry → FileInfo → Prop
  | file (path : String) (n : String) (size mtime : Int)
      (hx : excl.any (fun re => re path) = false) (hs : size ≠ 0) :
      EmitsFrom excl disk path (.file n size mtime)
        { path := path, disk := disk, size := size, mtime := mtime }
  | dir (path : String) (n : String) (children : FSList) (e : FSEntry)
      (fi : FileInfo)
      (hx : excl.any (fun re => re path) = false)
      (he : FSMem e children)
      (h : EmitsFrom excl disk (path ++ "/" ++ entryName e) e fi) :
      EmitsFrom excl disk path (.dir n children) fi

end FileHasher

namespace FileHasher

/-! Helper lemmas about the catalog operations. -/

theorem mem_insertByLastVerifiedDesc {r x : FileRecord} {l : List FileRecord} :
    x ∈ insertByLastVerifiedDesc r l ↔ x = r ∨ x ∈ l := by
  induction l with
  | nil => simp [insertByLastVerifiedDesc]
  | cons y ys ih =>
    simp only [insertByLastVerifiedDesc]
    by_cases h : r.lastVerified ≤ y.lastVerified
    · rw [if_pos h]
      simp only [List.mem_cons, ih]
      tauto
    · rw [if_neg h]
      simp only [List.mem_cons]

theorem mem_sortByLastVerifiedDesc {x : FileRecord} {l : List FileRecord} :
    x ∈ sortByLastVerifiedDesc l ↔ x ∈ l := by
  induction l with
  | nil => simp [sortByLastVerifiedDesc]
  | cons y ys ih =>
    simp only [sortByLastVerifiedDesc, mem_insertByLastVerifiedDesc, ih,
      List.mem_cons]

theorem mem_of_mem_FindMoveCandidates {c : FileRecord}
    {catalog : List FileRecord} {baseName : String} {size limit : Int}
    (h : c ∈ FindMoveCandidates catalog baseName size limit) : c ∈ catalog := by
  unfold FindMoveCandidates at h
  have h1 := List.mem_of_mem_take h
  have h2 := mem_sortByLastVerifiedDesc.mp h1
  exact List.mem_of_mem_filter h2

theorem FindMoveCandidates_length_le (catalog : List FileRecord)
    (baseName : String) (size : Int) :
    (FindMoveCandidates catalog baseName size 20).length ≤ 20 := by
  unfold FindMoveCandidates
  simpa using List.length_take_le 20
    (sortByLastVerifiedDesc (catalog.filter
      (fun r => r.size == size && r.path.endsWith ("/" ++ baseName))))

theorem FindMoveCandidates_size_basename {c : FileRecord}
    {catalog : List FileRecord} {baseName : String} {size limit : Int}
    (h : c ∈ FindMoveCandidates catalog baseName size limit) :
    c.size = size ∧ strEndsWith c.path ("/" ++ baseName) = true := by
  unfold FindMoveCandidates at h
  have h1 := List.mem_of_mem_take h
  have h2 := mem_sortByLastVerifiedDesc.mp h1
  have h3 := List.of_mem_filter h2
  simp only [Bool.and_eq_true, beq_iff_eq] at h3
  exact h3

theorem sorted_insertByLastVerifiedDesc {r : FileRecord} {l : List FileRecord}
    (h : l.Pairwise (fun a b => b.lastVerified ≤ a.lastVerified)) :
    (insertByLastVerifiedDesc r l).Pairwise
      (fun a b => b.lastVerified ≤ a.lastVerified) := by
  induction l with
  | nil => simp [insertByLastVerifiedDesc]
  | cons y ys ih =>
    simp only [insertByLastVerifiedDesc]
    rcases List.pairwise_cons.mp h with ⟨hy, hys⟩
    by_cases hle : r.lastVerified ≤ y.lastVerified
    · simp only [hle, if_true]
      refine List.pairwise_cons.mpr ⟨?_, ih hys⟩
      intro z hz
      rcases mem_insertByLastVerifiedDesc.mp hz with rfl | hz
      · exact hle
      · exact hy z hz
    · simp only [hle, if_false]
      refine List.pairwise_cons.mpr ⟨?_, h⟩
      intro z hz
      rcases List.mem_cons.mp hz with rfl | hz
      · omega
      · exact le_trans (hy z hz) (by omega)

theorem sorted_sortByLastVerifiedDesc (l : List FileRecord) :
    (sortByLastVerifiedDesc l).Pairwise
      (fun a b => b.lastVerified ≤ a.lastVerified) := by
  induction l with
  | nil => simp [sortByLastVerifiedDesc]
  | cons y ys ih => exact sorted_insertByLastVerifiedDesc ih

theorem FindMoveCandidates_sorted (catalog : List FileRecord)
    (baseName : String) (size limit : Int) :
    (FindMoveCandidates catalog baseName size limit).Pairwise
      (fun a b => b.lastVerified ≤ a.lastVerified) := by
  unfold FindMoveCandidates
  exact List.Pairwise.take (sorted_sortByLastVerifiedDesc _)

theorem mem_UpsertFileTx_of_ne {c : FileRecord} {cat : List FileRecord}
    {f : FileRecord} (hc : c ∈ cat) (hne : c.path ≠ f.path) :
    c ∈ UpsertFileTx cat f := by
  unfold UpsertFileTx
  by_cases hany : cat.any (fun r => r.path == f.path)
  · rw [if_pos hany]
    refine List.mem_map.mpr ⟨c, hc, ?_⟩
    simp [hne]
  · rw [if_neg hany]
    exact List.mem_append_left _ hc

theorem UpsertFileTx_mem_path {x : FileRecord} {cat : List FileRecord}
    {f : FileRecord} (hx : x ∈ UpsertFileTx cat f) (hp : x.path = f.path) :
    x.status = f.status ∧ x.sha256 = f.sha256 ∧ x.size = f.size
      ∧ x.mtime = f.mtime ∧ x.disk = f.disk := by
  unfold UpsertFileTx at hx
  by_cases hany : cat.any (fun r => r.path == f.path)
  · rw [if_pos hany] at hx
    rcases List.mem_map.mp hx with ⟨r, _, heq⟩
    by_cases hrp : r.path == f.path
    · rw [if_pos hrp] at heq
      subst heq
      exact ⟨rfl, rfl, rfl, rfl, rfl⟩
    · rw [if_neg hrp] at heq
      subst heq
      exact absurd (by simp [hp]) hrp
  · rw [if_neg hany] at hx
    rcases List.mem_append.mp hx with hx | hx
    · exfalso
      exact hany (List.any_eq_true.mpr ⟨x, hx, by simp [hp]⟩)
    · simp only [List.mem_singleton] at hx
      subst hx
      exact ⟨rfl, rfl, rfl, rfl, rfl⟩

theorem countP_path_eq_one {l : List FileRecord} {v : String}
    (hnd : (l.map (fun r => r.path)).Nodup) {c : FileRecord}
    (hc : c ∈ l) (hcv : c.path = v) :
    l.countP (fun r => r.path == v) = 1 := by
  induction l with
  | nil => cases hc
  | cons x xs ih =>
    rw [List.map_cons, List.nodup_cons] at hnd
    obtain ⟨hx, hxs⟩ := hnd
    rcases List.mem_cons.mp hc with rfl | hc
    · rw [List.countP_cons]
      have h0 : xs.countP (fun r => r.path == v) = 0 := by
        refine List.countP_eq_zero.mpr ?_
        intro r hr hrv
        rw [beq_iff_eq] at hrv
        exact hx (hcv ▸ hrv ▸ List.mem_map_of_mem _ hr)
      simp [h0, hcv]
    · have hxv : (x.path == v) = false := by
        refine beq_eq_false_iff_ne.mpr ?_
        intro hxvv
        exact hx (hxvv ▸ hcv ▸ (hcv ▸ List.mem_map_of_mem _ hc))
      rw [List.countP_cons, hxv]
      simpa using ih hxs hc

/-- Same path in a path-nodup catalog means the same record. -/
theorem eq_of_path_eq {l : List FileRecord}
    (hnd : (l.map (fun r => r.path)).Nodup) {r c : FileRecord}
    (hr : r ∈ l) (hc : c ∈ l) (hp : r.path = c.path) : r = c :=
  List.inj_on_of_nodup_map hnd hr hc hp

/-- Counting and field facts about `MovePathTx` on a path-unique catalog:
exactly one record is keyed at the destination afterwards, none remains
at the source, and the destination record keeps the moved record's
`first_seen` and digest with status reset to ok. -/
theorem MovePathTx_facts (cat : List FileRecord) (c : FileRecord)
    (newPath newDisk : String) (sz mt : Int) (now : Nat)
    (hnd : (cat.map (fun r => r.path)).Nodup) (hc : c ∈ cat)
    (hne : c.path ≠ newPath) :
    ((MovePathTx cat c.path newPath newDisk sz mt now).countP
        (fun r => r.path == newPath) = 1)
    ∧ ((MovePathTx cat c.path newPath newDisk sz mt now).countP
        (fun r => r.path == c.path) = 0)
    ∧ (∀ x ∈ MovePathTx cat c.path newPath newDisk sz mt now,
        x.path = newPath →
          x.firstSeen = c.firstSeen ∧ x.sha256 = c.sha256
            ∧ x.status = "ok" ∧ x.size = sz ∧ x.mtime = mt) := by
  have hclean : ∀ r ∈ cat.filter (fun r => !(r.path == newPath)),
      r.path ≠ newPath := by
    intro r hr
    have := List.of_mem_filter hr
    simpa using this
  have hndc : ((cat.filter (fun r => !(r.path == newPath))).map
      (fun r => r.path)).Nodup :=
    List.Nodup.sublist (List.Sublist.map _ (List.filter_sublist _)) hnd
  have hcmem : c ∈ cat.filter (fun r => !(r.path == newPath)) :=
    List.mem_filter.mpr ⟨hc, by simp [hne]⟩
  refine ⟨?_, ?_, ?_⟩
  · unfold MovePathTx
    rw [List.countP_map]
    have hcongr : ∀ r ∈ cat.filter (fun r => !(r.path == newPath)),
        (((fun x => x.path == newPath) ∘ (fun r =>
          if r.path == c.path then
            { r with path := newPath, disk := newDisk, size := sz,
                     mtime := mt, lastVerified := now, status := "ok" }
          else r)) r = true ↔ (fun r => r.path == c.path) r = true) := by
      intro r hr
      by_cases hrc : r.path = c.path
      · simp [Function.comp, hrc]
      · simp [Function.comp, hrc, hclean r hr]
    rw [List.countP_congr hcongr]
    exact countP_path_eq_one hndc hcmem rfl
  · unfold MovePathTx
    rw [List.countP_map]
    refine List.countP_eq_zero.mpr ?_
    intro r hr
    by_cases hrc : r.path = c.path
    · simp only [Function.comp, beq_iff_eq, hrc, if_true, beq_iff_eq]
      intro hcon
      exact hne hcon.symm
    · simp [Function.comp, hrc]
  · intro x hx hxp
    unfold MovePathTx at hx
    rcases List.mem_map.mp hx with ⟨r, hr, heq⟩
    by_cases hrc : r.path = c.path
    · rw [if_pos (beq_iff_eq.mpr hrc)] at heq
      have hreq : r = c :=
        eq_of_path_eq hnd (List.mem_of_mem_filter hr) hc hrc
      subst heq
      subst hreq
      exact ⟨rfl, rfl, rfl, rfl, rfl⟩
    · rw [if_neg (fun h => hrc (beq_iff_eq.mp h))] at heq
      subst heq
      exact absurd hxp (hclean r hr)

/-- Candidates skipped by the loop (own path equals the new path, path
still present, or a non-IsNotExist stat error) do not affect it. -/
theorem moveDetectLoop_append (stat : String → StatOutcome)
    (newPath newSha : String) (pre rest : List FileRecord)
    (hpre : ∀ x ∈ pre, x.path = newPath
      ∨ (∃ sz mt, stat x.path = .found sz mt) ∨ stat x.path = .otherErr) :
    moveDetectLoop stat newPath newSha (pre ++ rest) =
      moveDetectLoop stat newPath newSha rest := by
  induction pre with
  | nil => rfl
  | cons x xs ih =>
    have hx := hpre x (List.mem_cons_self x xs)
    have hrec : ∀ y ∈ xs, y.path = newPath
        ∨ (∃ sz mt, stat y.path = .found sz mt) ∨ stat y.path = .otherErr :=
      fun y hy => hpre y (List.mem_cons_of_mem x hy)
    rw [List.cons_append]
    rcases hx with hx | ⟨sz, mt, hx⟩ | hx
    · simp only [moveDetectLoop, hx, beq_self_eq_true, if_true]
      exact ih hrec
    · simp only [moveDetectLoop]
      by_cases hp : x.path == newPath
      · rw [if_pos hp]
        exact ih hrec
      · rw [if_neg hp, hx]
        exact ih hrec
    · simp only [moveDetectLoop]
      by_cases hp : x.path == newPath
      · rw [if_pos hp]
        exact ih hrec
      · rw [if_neg hp, hx]
        exact ih hrec

/-- The first candidate whose old path is gone decides the loop. -/
theorem moveDetectLoop_cons (stat : String → StatOutcome)
    (newPath newSha : String) (c : FileRecord) (rest : List FileRecord)
    (hcp : c.path ≠ newPath) (hcs : stat c.path = .notExist) :
    moveDetectLoop stat newPath newSha (c :: rest) =
      if c.sha256 == newSha then .moved c.path else .corrupt c.path := by
  simp only [moveDetectLoop, beq_eq_false_iff_ne.mpr hcp, Bool.false_eq_true,
    if_false, hcs]

/-- C1, amended: in an INCREMENTAL scan (quick-lookup map loaded), when a
successfully hashed result arrives for a path absent from the lookup map,
move detection searches same-basename same-size candidates
(most-recently-verified first, capped at 20, per `FindMoveCandidates`);
if the first candidate whose own path no longer exists has a digest equal
to the new digest, that record is re-keyed to the new path via
`MovePathTx` (any record at the destination deleted first), status ok,
the search stops (the result is independent of the remaining candidates
`rest`) and no upsert follows — exactly one record remains at the new
path, with first-seen and digest carried forward.  A full scan
(`lookupMap = none`) never attempts move detection, see the
counterexample. -/
theorem scan_move_rekey
    (stat : String → StatOutcome) (m : String → Option QuickLookup)
    (now : Nat) (st : ScanState) (r : HashResult)
    (pre rest : List FileRecord) (c : FileRecord)
    (hr : r.err = none) (hm : m r.path = none)
    (hnd : (st.catalog.map (fun x => x.path)).Nodup)
    (hcands : FindMoveCandidates st.catalog (filepathBase r.path) r.size 20
      = pre ++ c :: rest)
    (hpre : ∀ x ∈ pre, x.path = r.path
      ∨ (∃ sz mt, stat x.path = .found sz mt) ∨ stat x.path = .otherErr)
    (hcp : c.path ≠ r.path) (hcs : stat c.path = .notExist)
    (hsha : c.sha256 = r.sha256) :
    processScanResult stat (some m) now st r =
      { st with totalProcessed := st.totalProcessed + 1,
                catalog := (MovePathTx st.catalog c.path r.path r.disk
                  r.size r.mtime now) }
    ∧ (processScanResult stat (some m) now st r).catalog.countP
        (fun x => x.path == r.path) = 1
    ∧ (processScanResult stat (some m) now st r).catalog.countP
        (fun x => x.path == c.path) = 0
    ∧ (∀ x ∈ (processScanResult stat (some m) now st r).catalog,
        x.path = r.path →
          x.firstSeen = c.firstSeen ∧ x.sha256 = c.sha256
            ∧ x.status = "ok") := by
  have hcmem : c ∈ st.catalog := by
    refine @mem_of_mem_FindMoveCandidates c st.catalog
      (filepathBase r.path) r.size 20 ?_
    rw [hcands]
    exact List.mem_append_right _ (List.mem_cons_self _ _)
  have hloop : moveDetectLoop stat r.path r.sha256
      (FindMoveCandidates st.catalog (filepathBase r.path) r.size 20)
      = .moved c.path := by
    rw [hcands, show pre ++ c :: rest = pre ++ (c :: rest) from rfl,
      moveDetectLoop_append stat r.path r.sha256 pre (c :: rest) hpre,
      moveDetectLoop_cons stat r.path r.sha256 c rest hcp hcs]
    simp [hsha]
  have hmain : processScanResult stat (some m) now st r =
      { st with totalProcessed := st.totalProcessed + 1,
                catalog := (MovePathTx st.catalog c.path r.path r.disk
                  r.size r.mtime now) } := by
    simp only [processScanResult, hr, hm, hloop]
  have hfacts := MovePathTx_facts st.catalog c r.path r.disk r.size r.mtime
    now hnd hcmem hcp
  rw [hmain]
  refine ⟨rfl, hfacts.1, hfacts.2.1, ?_⟩
  intro x hx hxp
  have h3 := hfacts.2.2 x hx hxp
  exact ⟨h3.1, h3.2.1, h3.2.2.1⟩

/-- C1 counterexample to the claim as stated (quantifying over EVERY
scan): in a full scan (`--full`, no lookup map) a result at a fresh path
with a same-basename same-size equal-digest candidate whose own path is
gone is NOT re-keyed: the code upserts a fresh record, two records
remain (the candidate survives at its old path) and the new record's
first-seen is the scan time 9, not the candidate's original 1. -/
theorem scan_move_rekey_counterexample :
    (processScanResult (fun _ => StatOutcome.notExist) none 9
      { catalog := [{ path := "/a/f.txt", disk := "d1", size := 5,
                      mtime := 2, sha256 := "aa", firstSeen := 1,
                      lastVerified := 1, status := "ok" }],
        totalProcessed := 0, totalErrors := 0, moveWarnings := [] }
      { path := "/b/f.txt", disk := "d1", size := 5, mtime := 3,
        sha256 := "aa", err := none }).catalog.length = 2
    ∧ (processScanResult (fun _ => StatOutcome.notExist) none 9
      { catalog := [{ path := "/a/f.txt", disk := "d1", size := 5,
                      mtime := 2, sha256 := "aa", firstSeen := 1,
                      lastVerified := 1, status := "ok" }],
        totalProcessed := 0, totalErrors := 0, moveWarnings := [] }
      { path := "/b/f.txt", disk := "d1", size := 5, mtime := 3,
        sha256 := "aa", err := none }).catalog.countP
        (fun x => x.path == "/a/f.txt") = 1
    ∧ (∀ x ∈ (processScanResult (fun _ => StatOutcome.notExist) none 9
      { catalog := [{ path := "/a/f.txt", disk := "d1", size := 5,
                      mtime := 2, sha256 := "aa", firstSeen := 1,
                      lastVerified := 1, status := "ok" }],
        totalProcessed := 0, totalErrors := 0, moveWarnings := [] }
      { path := "/b/f.txt", disk := "d1", size := 5, mtime := 3,
        sha256 := "aa", err := none }).catalog,
        x.path = "/b/f.txt" → x.firstSeen = 9) := by
  refine ⟨by decide, by decide, by decide⟩

/-- C1 witness: a one-record catalog, an incremental-scan result at a new
path with equal digest and the old path gone; the record is re-keyed. -/
theorem scan_move_rekey_witness :
    (processScanResult (fun _ => StatOutcome.notExist)
      (some (fun _ => none)) 9
      { catalog := [{ path := "/a/f.txt", disk := "d1", size := 5,
                      mtime := 2, sha256 := "aa", firstSeen := 1,
                      lastVerified := 1, status := "ok" }],
        totalProcessed := 0, totalErrors := 0, moveWarnings := [] }
      { path := "/b/f.txt", disk := "d1", size := 5, mtime := 3,
        sha256 := "aa", err := none }).catalog =
      [{ path := "/b/f.txt", disk := "d1", size := 5, mtime := 3,
         sha256 := "aa", firstSeen := 1, lastVerified := 9,
         status := "ok" }]
    ∧ (processScanResult (fun _ => StatOutcome.notExist)
      (some (fun _ => none)) 9
      { catalog := [{ path := "/a/f.txt", disk := "d1", size := 5,
                      mtime := 2, sha256 := "aa", firstSeen := 1,
                      lastVerified := 1, status := "ok" }],
        totalProcessed := 0, totalErrors := 0, moveWarnings := [] }
      { path := "/b/f.txt", disk := "d1", size := 5, mtime := 3,
        sha256 := "aa", err := none }).catalog.countP
        (fun x => x.path == "/b/f.txt") = 1 := by
  have h := scan_move_rekey (fun _ => StatOutcome.notExist)
    (fun _ => none) 9
    { catalog := [{ path := "/a/f.txt", disk := "d1", size := 5,
                    mtime := 2, sha256 := "aa", firstSeen := 1,
                    lastVerified := 1, status := "ok" }],
      totalProcessed := 0, totalErrors := 0, moveWarnings := [] }
    { path := "/b/f.txt", disk := "d1", size := 5, mtime := 3,
      sha256 := "aa", err := none }
    [] []
    { path := "/a/f.txt", disk := "d1", size := 5, mtime := 2,
      sha256 := "aa", firstSeen := 1, lastVerified := 1, status := "ok" }
    rfl rfl (by decide) (by decide) (by simp) (by decide) rfl rfl
  refine ⟨?_, h.2.1⟩
  rw [h.1]
  decide

/-- C2: in an incremental scan, when move detection reaches a candidate
with the same basename and size whose old path is gone but whose stored
digest differs from the new digest, no re-keying happens: the new path
is upserted with status corrupted, a loud warning (candidate path, new
path) is recorded, and the search stops at that candidate (the outcome
does not depend on the remaining candidates `rest`). -/
theorem scan_move_corruption
    (stat : String → StatOutcome) (m : String → Option QuickLookup)
    (now : Nat) (st : ScanState) (r : HashResult)
    (pre rest : List FileRecord) (c : FileRecord)
    (hr : r.err = none) (hm : m r.path = none)
    (hcands : FindMoveCandidates st.catalog (filepathBase r.path) r.size 20
      = pre ++ c :: rest)
    (hpre : ∀ x ∈ pre, x.path = r.path
      ∨ (∃ sz mt, stat x.path = .found sz mt) ∨ stat x.path = .otherErr)
    (hcp : c.path ≠ r.path) (hcs : stat c.path = .notExist)
    (hsha : c.sha256 ≠ r.sha256) :
    processScanResult stat (some m) now st r =
      { st with totalProcessed := st.totalProcessed + 1,
                catalog := (UpsertFileTx st.catalog
                  { path := r.path, disk := r.disk, size := r.size,
                    mtime := r.mtime, sha256 := r.sha256, firstSeen := now,
                    lastVerified := now, status := "corrupted" }),
                moveWarnings := st.moveWarnings ++ [(c.path, r.path)] }
    ∧ c ∈ (processScanResult stat (some m) now st r).catalog
    ∧ (∀ x ∈ (processScanResult stat (some m) now st r).catalog,
        x.path = r.path → x.status = "corrupted") := by
  have hcmem : c ∈ st.catalog := by
    refine @mem_of_mem_FindMoveCandidates c st.catalog
      (filepathBase r.path) r.size 20 ?_
    rw [hcands]
    exact List.mem_append_right _ (List.mem_cons_self _ _)
  have hloop : moveDetectLoop stat r.path r.sha256
      (FindMoveCandidates st.catalog (filepathBase r.path) r.size 20)
      = .corrupt c.path := by
    rw [hcands, show pre ++ c :: rest = pre ++ (c :: rest) from rfl,
      moveDetectLoop_append stat r.path r.sha256 pre (c :: rest) hpre,
      moveDetectLoop_cons stat r.path r.sha256 c rest hcp hcs]
    simp [hsha]
  have hmain : processScanResult stat (some m) now st r =
      { st with totalProcessed := st.totalProcessed + 1,
                catalog := (UpsertFileTx st.catalog
                  { path := r.path, disk := r.disk, size := r.size,
                    mtime := r.mtime, sha256 := r.sha256, firstSeen := now,
                    lastVerified := now, status := "corrupted" }),
                moveWarnings := st.moveWarnings ++ [(c.path, r.path)] } := by
    simp only [processScanResult, hr, hm, hloop]
  rw [hmain]
  refine ⟨rfl, mem_UpsertFileTx_of_ne hcmem hcp, ?_⟩
  intro x hx hxp
  exact (UpsertFileTx_mem_path hx hxp).1

/-- C2 witness: same-basename same-size candidate, old path gone, digest
differs — the new path is cataloged corrupted, the old record survives,
and the warning is recorded. -/
theorem scan_move_corruption_witness :
    (processScanResult (fun _ => StatOutcome.notExist)
      (some (fun _ => none)) 9
      { catalog := [{ path := "/a/f.txt", disk := "d1", size := 5,
                      mtime := 2, sha256 := "aa", firstSeen := 1,
                      lastVerified := 1, status := "ok" }],
        totalProcessed := 0, totalErrors := 0, moveWarnings := [] }
      { path := "/b/f.txt", disk := "d1", size := 5, mtime := 3,
        sha256 := "bb", err := none }).moveWarnings =
      [("/a/f.txt", "/b/f.txt")]
    ∧ (∀ x ∈ (processScanResult (fun _ => StatOutcome.notExist)
      (some (fun _ => none)) 9
      { catalog := [{ path := "/a/f.txt", disk := "d1", size := 5,
                      mtime := 2, sha256 := "aa", firstSeen := 1,
                      lastVerified := 1, status := "ok" }],
        totalProcessed := 0, totalErrors := 0, moveWarnings := [] }
      { path := "/b/f.txt", disk := "d1", size := 5, mtime := 3,
        sha256 := "bb", err := none }).catalog,
        x.path = "/b/f.txt" → x.status = "corrupted") := by
  have h := scan_move_corruption (fun _ => StatOutcome.notExist)
    (fun _ => none) 9
    { catalog := [{ path := "/a/f.txt", disk := "d1", size := 5,
                    mtime := 2, sha256 := "aa", firstSeen := 1,
                    lastVerified := 1, status := "ok" }],
      totalProcessed := 0, totalErrors := 0, moveWarnings := [] }
    { path := "/b/f.txt", disk := "d1", size := 5, mtime := 3,
      sha256 := "bb", err := none }
    [] []
    { path := "/a/f.txt", disk := "d1", size := 5, mtime := 2,
      sha256 := "aa", firstSeen := 1, lastVerified := 1, status := "ok" }
    rfl rfl (by decide) (by simp) (by decide) rfl (by decide)
  refine ⟨?_, h.2.2⟩
  rw [h.1]
  rfl

/-! Claims C10 and C9. -/

/-- C10: the Hasher and Verifier constructors never produce a pool with
zero or negative workers: `hasher.New` with a worker count of zero or
less creates a pool with exactly 1 worker, `verifier.New` with a worker
count of zero or less uses exactly 4 workers, and for every integer
input both produce at least one worker (neither constructor can fail:
both are total functions). -/
theorem hasher_verifier_New_workers (w : Int) (q : Bool) :
    (w ≤ 0 → (hasher.New w).workers = 1 ∧ (verifier.New w q).workers = 4)
    ∧ 1 ≤ (hasher.New w).workers ∧ 1 ≤ (verifier.New w q).workers := by
  constructor
  · intro h
    simp [hasher.New, verifier.New, h]
  · constructor
    · unfold hasher.New
      by_cases h : w ≤ 0 <;> simp [h] <;> omega
    · unfold verifier.New
      by_cases h : w ≤ 0 <;> simp [h] <;> omega

/-- C10 witness at `w = 0`, `w = -3`. -/
theorem hasher_verifier_New_workers_witness :
    (hasher.New 0).workers = 1 ∧ (verifier.New 0 true).workers = 4
    ∧ (hasher.New (-3)).workers = 1 ∧ (verifier.New (-3) false).workers = 4 := by
  refine ⟨((hasher_verifier_New_workers 0 true).1 (by decide)).1,
          ((hasher_verifier_New_workers 0 true).1 (by decide)).2,
          ((hasher_verifier_New_workers (-3) false).1 (by decide)).1,
          ((hasher_verifier_New_workers (-3) false).1 (by decide)).2⟩

/-- C9: `first_seen` is immutable after record creation: an upsert of an
existing path, a status update, and a path re-keying each produce only
records whose `first_seen` equals that of a record already in the
catalog before the write. -/
theorem firstSeen_immutable (cat : List FileRecord) (f : FileRecord)
    (p s newDisk oldPath newPath : String) (sz mt : Int) (now : Nat)
    (hexists : ∃ r ∈ cat, r.path = f.path) :
    (∀ r' ∈ UpsertFileTx cat f,
        ∃ r ∈ cat, r'.path = r.path ∧ r'.firstSeen = r.firstSeen)
    ∧ (∀ r' ∈ UpdateStatusTx cat p s now,
        ∃ r ∈ cat, r'.path = r.path ∧ r'.firstSeen = r.firstSeen)
    ∧ (∀ r' ∈ MovePathTx cat oldPath newPath newDisk sz mt now,
        ∃ r ∈ cat, r'.firstSeen = r.firstSeen) := by
  refine ⟨?_, ?_, ?_⟩
  · intro r' hr'
    have hany : cat.any (fun r => r.path == f.path) = true := by
      rcases hexists with ⟨r, hr, hpath⟩
      exact List.any_eq_true.mpr ⟨r, hr, by simp [hpath]⟩
    rw [UpsertFileTx, if_pos hany] at hr'
    rcases List.mem_map.mp hr' with ⟨r, hr, heq⟩
    by_cases hp : r.path == f.path
    · refine ⟨r, hr, ?_⟩
      simp only [hp, if_true] at heq
      subst heq
      exact ⟨rfl, rfl⟩
    · refine ⟨r, hr, ?_⟩
      simp only [hp, Bool.false_eq_true, if_false] at heq
      subst heq
      exact ⟨rfl, rfl⟩
  · intro r' hr'
    rcases List.mem_map.mp hr' with ⟨r, hr, heq⟩
    by_cases hp : r.path == p
    · refine ⟨r, hr, ?_⟩
      simp only [hp, if_true] at heq
      subst heq
      exact ⟨rfl, rfl⟩
    · refine ⟨r, hr, ?_⟩
      simp only [hp, Bool.false_eq_true, if_false] at heq
      subst heq
      exact ⟨rfl, rfl⟩
  · intro r' hr'
    rcases List.mem_map.mp hr' with ⟨r, hr, heq⟩
    have hrcat : r ∈ cat := List.mem_of_mem_filter hr
    by_cases hp : r.path == oldPath
    · refine ⟨r, hrcat, ?_⟩
      simp only [hp, if_true] at heq
      subst heq
      rfl
    · refine ⟨r, hrcat, ?_⟩
      simp only [hp, Bool.false_eq_true, if_false] at heq
      subst heq
      rfl

/-- C9 witness: a concrete catalog with one record, upserted, status
updated and re-keyed; in each outcome the surviving record keeps
`first_seen = 11`. -/
theorem firstSeen_immutable_witness :
    (∀ r' ∈ UpsertFileTx
        [{ path := "/a/f", disk := "d1", size := 5, mtime := 2,
           sha256 := "aa", firstSeen := 11, lastVerified := 3,
           status := "ok" }]
        { path := "/a/f", disk := "d2", size := 6, mtime := 9,
          sha256 := "bb", firstSeen := 99, lastVerified := 9,
          status := "ok" },
        r'.firstSeen = 11)
    ∧ (∀ r' ∈ UpdateStatusTx
        [{ path := "/a/f", disk := "d1", size := 5, mtime := 2,
           sha256 := "aa", firstSeen := 11, lastVerified := 3,
           status := "ok" }] "/a/f" "corrupted" 7,
        r'.firstSeen = 11)
    ∧ (∀ r' ∈ MovePathTx
        [{ path := "/a/f", disk := "d1", size := 5, mtime := 2,
           sha256 := "aa", firstSeen := 11, lastVerified := 3,
           status := "ok" }] "/a/f" "/b/f" "d2" 5 8 7,
        r'.firstSeen = 11) := by
  have h := firstSeen_immutable
    [{ path := "/a/f", disk := "d1", size := 5, mtime := 2,
       sha256 := "aa", firstSeen := 11, lastVerified := 3, status := "ok" }]
    { path := "/a/f", disk := "d2", size := 6, mtime := 9,
      sha256 := "bb", firstSeen := 99, lastVerified := 9, status := "ok" }
    "/a/f" "corrupted" "d2" "/a/f" "/b/f" 5 8 7
    ⟨{ path := "/a/f", disk := "d1", size := 5, mtime := 2,
       sha256 := "aa", firstSeen := 11, lastVerified := 3, status := "ok" },
     by simp, rfl⟩
  refine ⟨?_, ?_, ?_⟩
  · intro r' hr'
    rcases h.1 r' hr' with ⟨r, hr, _, hfs⟩
    simp only [List.mem_singleton] at hr
    subst hr
    exact hfs
  · intro r' hr'
    rcases h.2.1 r' hr' with ⟨r, hr, _, hfs⟩
    simp only [List.mem_singleton] at hr
    subst hr
    exact hfs
  · intro r' hr'
    rcases h.2.2 r' hr' with ⟨r, hr, hfs⟩
    simp only [List.mem_singleton] at hr
    subst hr
    exact hfs

/-! Claims C3, C4 and C5: the verifier. -/

theorem verifyStep_inv (stat : String → StatOutcome)
    (hashFn : String → Except String String) (quick : Bool) (now : Nat)
    (st : VerifyState) (f : FileRecord)
    (h1 : st.callbacks.length = st.summary.totalChecked)
    (h2 : st.summary.totalChecked
      = st.summary.ok + st.summary.corrupted + st.summary.missing) :
    (verifyStep stat hashFn quick now st f).callbacks.length
      = (verifyStep stat hashFn quick now st f).summary.totalChecked
    ∧ (verifyStep stat hashFn quick now st f).summary.totalChecked
      = (verifyStep stat hashFn quick now st f).summary.ok
        + (verifyStep stat hashFn quick now st f).summary.corrupted
        + (verifyStep stat hashFn quick now st f).summary.missing := by
  unfold verifyStep
  cases hfd : verifyFeedDecision stat quick f with
  | dropped => exact ⟨h1, h2⟩
  | skippedQuick => exact ⟨h1, h2⟩
  | missing =>
    refine ⟨?_, ?_⟩ <;> simp [List.length_append, h1] <;> omega
  | toHash =>
    cases hh : hashFn f.path with
    | error e =>
      refine ⟨?_, ?_⟩ <;> simp [List.length_append, h1] <;> omega
    | ok d =>
      by_cases hd : d == f.sha256
      · refine ⟨?_, ?_⟩ <;> simp [hd, List.length_append, h1] <;> omega
      · refine ⟨?_, ?_⟩ <;> simp [hd, List.length_append, h1] <;> omega

theorem verifyFold_inv (stat : String → StatOutcome)
    (hashFn : String → Except String String) (quick : Bool) (now : Nat)
    (files : List FileRecord) :
    ∀ st : VerifyState,
      st.callbacks.length = st.summary.totalChecked →
      st.summary.totalChecked
        = st.summary.ok + st.summary.corrupted + st.summary.missing →
      ((files.foldl (verifyStep stat hashFn quick now) st).callbacks.length
        = (files.foldl (verifyStep stat hashFn quick now) st).summary.totalChecked)
      ∧ ((files.foldl (verifyStep stat hashFn quick now) st).summary.totalChecked
        = (files.foldl (verifyStep stat hashFn quick now) st).summary.ok
          + (files.foldl (verifyStep stat hashFn quick now) st).summary.corrupted
          + (files.foldl (verifyStep stat hashFn quick now) st).summary.missing) := by
  induction files with
  | nil =>
    intro st h1 h2
    exact ⟨h1, h2⟩
  | cons f fs ih =>
    intro st h1 h2
    have h := verifyStep_inv stat hashFn quick now st f h1 h2
    simpa only [List.foldl_cons] using ih _ h.1 h.2

/-- C3: per catalogued file processed by a verify run: a non-existing
path is classified missing with no hashing attempted (the right-hand
side does not mention `hashFn`) and the stored digest reported as the
old hash; an existing path (quick off) is hashed, and when hashing
yields digest `d` the single emitted callback carries the stored digest
as old hash and `d` as new hash, with status ok exactly when `d` equals
the stored digest and corrupted exactly when it differs; and over a
whole run exactly one callback is emitted per processed file:
`callbacks.length = totalChecked = ok + corrupted + missing`. -/
theorem verifier_per_file_classification
    (stat : String → StatOutcome) (hashFn : String → Except String String)
    (quick : Bool) (now : Nat) (st : VerifyState) (f : FileRecord)
    (catalog files : List FileRecord) :
    (stat f.path = .notExist →
      verifyStep stat hashFn false now st f =
        { catalog := UpdateStatusTx st.catalog f.path "missing" now,
          summary := { st.summary with
            totalChecked := st.summary.totalChecked + 1,
            missing := st.summary.missing + 1 },
          callbacks := st.callbacks ++
            [{ path := f.path, status := "missing", oldHash := f.sha256,
               newHash := "", err := none }] })
    ∧ (∀ sz mt d, stat f.path = .found sz mt → hashFn f.path = .ok d →
        ∃ vr, (verifyStep stat hashFn false now st f).callbacks
            = st.callbacks ++ [vr]
          ∧ vr.path = f.path ∧ vr.oldHash = f.sha256 ∧ vr.newHash = d
          ∧ (vr.status = "ok" ↔ d = f.sha256)
          ∧ (vr.status = "corrupted" ↔ d ≠ f.sha256))
    ∧ ((verifyFiles stat hashFn quick now catalog files).callbacks.length
        = (verifyFiles stat hashFn quick now catalog files).summary.totalChecked)
    ∧ ((verifyFiles stat hashFn quick now catalog files).summary.totalChecked
        = (verifyFiles stat hashFn quick now catalog files).summary.ok
          + (verifyFiles stat hashFn quick now catalog files).summary.corrupted
          + (verifyFiles stat hashFn quick now catalog files).summary.missing) := by
  refine ⟨?_, ?_, ?_, ?_⟩
  · intro hstat
    have hfd : verifyFeedDecision stat false f = .missing := by
      unfold verifyFeedDecision
      rw [hstat]
    simp only [verifyStep, hfd]
  · intro sz mt d hstat hh
    have hfd : verifyFeedDecision stat false f = .toHash := by
      unfold verifyFeedDecision
      rw [hstat]
      simp
    by_cases hd : d = f.sha256
    · refine ⟨{ path := f.path, status := "ok", oldHash := f.sha256,
                newHash := d, err := none }, ?_, rfl, rfl, rfl, ?_, ?_⟩
      · simp only [verifyStep, hfd, hh, beq_iff_eq.mpr hd, if_true]
      · exact ⟨fun _ => hd, fun _ => rfl⟩
      · exact ⟨fun h => absurd h (by simp), fun h => absurd hd h⟩
    · refine ⟨{ path := f.path, status := "corrupted", oldHash := f.sha256,
                newHash := d, err := none }, ?_, rfl, rfl, rfl, ?_, ?_⟩
      · simp only [verifyStep, hfd, hh,
          beq_eq_false_iff_ne.mpr hd, Bool.false_eq_true, if_false]
      · exact ⟨fun h => absurd h (by simp), fun h => absurd h hd⟩
      · exact ⟨fun _ => hd, fun _ => rfl⟩
  · exact (verifyFold_inv stat hashFn quick now files _ rfl rfl).1
  · exact (verifyFold_inv stat hashFn quick now files _ rfl rfl).2

/-- C3 witness: a missing file reports the stored digest with status
missing; a present file whose fresh digest differs is reported corrupted
with both digests; a one-file run emits exactly one callback. -/
theorem verifier_per_file_classification_witness :
    ((verifyStep (fun _ => StatOutcome.notExist) (fun _ => Except.ok "aa")
        false 9
        { catalog := [{ path := "/a/f", disk := "d1", size := 5,
                        mtime := 2, sha256 := "aa", firstSeen := 1,
                        lastVerified := 1, status := "ok" }],
          summary := { totalChecked := 0, ok := 0, corrupted := 0,
                       missing := 0, skipped := 0, errors := 0 },
          callbacks := [] }
        { path := "/a/f", disk := "d1", size := 5, mtime := 2,
          sha256 := "aa", firstSeen := 1, lastVerified := 1,
          status := "ok" }).callbacks
      = [{ path := "/a/f", status := "missing", oldHash := "aa",
           newHash := "", err := none }])
    ∧ (∃ vr, (verifyStep (fun _ => StatOutcome.found 6 7)
        (fun _ => Except.ok "bb") false 9
        { catalog := [{ path := "/a/f", disk := "d1", size := 5,
                        mtime := 2, sha256 := "aa", firstSeen := 1,
                        lastVerified := 1, status := "ok" }],
          summary := { totalChecked := 0, ok := 0, corrupted := 0,
                       missing := 0, skipped := 0, errors := 0 },
          callbacks := [] }
        { path := "/a/f", disk := "d1", size := 5, mtime := 2,
          sha256 := "aa", firstSeen := 1, lastVerified := 1,
          status := "ok" }).callbacks = [] ++ [vr]
        ∧ vr.status = "corrupted" ∧ vr.oldHash = "aa" ∧ vr.newHash = "bb")
    ∧ ((verifyFiles (fun _ => StatOutcome.notExist) (fun _ => Except.ok "aa")
        false 9 []
        [{ path := "/a/f", disk := "d1", size := 5, mtime := 2,
           sha256 := "aa", firstSeen := 1, lastVerified := 1,
           status := "ok" }]).callbacks.length
      = (verifyFiles (fun _ => StatOutcome.notExist) (fun _ => Except.ok "aa")
        false 9 []
        [{ path := "/a/f", disk := "d1", size := 5, mtime := 2,
           sha256 := "aa", firstSeen := 1, lastVerified := 1,
           status := "ok" }]).summary.totalChecked) := by
  refine ⟨?_, ?_, ?_⟩
  · rw [(verifier_per_file_classification (fun _ => StatOutcome.notExist)
      (fun _ => Except.ok "aa") false 9
      { catalog := [{ path := "/a/f", disk := "d1", size := 5,
                      mtime := 2, sha256 := "aa", firstSeen := 1,
                      lastVerified := 1, status := "ok" }],
        summary := { totalChecked := 0, ok := 0, corrupted := 0,
                     missing := 0, skipped := 0, errors := 0 },
        callbacks := [] }
      { path := "/a/f", disk := "d1", size := 5, mtime := 2,
        sha256 := "aa", firstSeen := 1, lastVerified := 1, status := "ok" }
      [] []).1 rfl]
    rfl
  · rcases (verifier_per_file_classification (fun _ => StatOutcome.found 6 7)
      (fun _ => Except.ok "bb") false 9
      { catalog := [{ path := "/a/f", disk := "d1", size := 5,
                      mtime := 2, sha256 := "aa", firstSeen := 1,
                      lastVerified := 1, status := "ok" }],
        summary := { totalChecked := 0, ok := 0, corrupted := 0,
                     missing := 0, skipped := 0, errors := 0 },
        callbacks := [] }
      { path := "/a/f", disk := "d1", size := 5, mtime := 2,
        sha256 := "aa", firstSeen := 1, lastVerified := 1, status := "ok" }
      [] []).2.1 6 7 "bb" rfl rfl with ⟨vr, hcb, _, hold, hnew, _, hcorr⟩
    exact ⟨vr, hcb, hcorr.mpr (by decide), hold, hnew⟩
  · exact (verifier_per_file_classification (fun _ => StatOutcome.notExist)
      (fun _ => Except.ok "aa") false 9
      { catalog := [],
        summary := { totalChecked := 0, ok := 0, corrupted := 0,
                     missing := 0, skipped := 0, errors := 0 },
        callbacks := [] }
      { path := "/a/f", disk := "d1", size := 5, mtime := 2,
        sha256 := "aa", firstSeen := 1, lastVerified := 1, status := "ok" }
      []
      [{ path := "/a/f", disk := "d1", size := 5, mtime := 2,
         sha256 := "aa", firstSeen := 1, lastVerified := 1,
         status := "ok" }]).2.2.1

/-- C4, amended: a per-file open/read failure during hashing is counted
and never aborts the run, and in a SCAN the path is not written (catalog
and warnings untouched, only the processed and error counters move); in
a VERIFY run, however, the code does write: the file's record status is
set to corrupted (also counted as corrupted and as an error, with a
callback carrying the error), while the record's digest, size and
first-seen are left unchanged. -/
theorem per_file_hash_error_handling
    (stat : String → StatOutcome)
    (lookupMap : Option (String → Option QuickLookup))
    (hashFn : String → Except String String) (now : Nat)
    (sst : ScanState) (vst : VerifyState) (r : HashResult) (f : FileRecord)
    (e e2 : String) (hr : r.err = some e)
    (hfd : verifyFeedDecision stat false f = .toHash)
    (hh : hashFn f.path = .error e2) :
    processScanResult stat lookupMap now sst r =
      { sst with totalProcessed := sst.totalProcessed + 1,
                 totalErrors := sst.totalErrors + 1 }
    ∧ verifyStep stat hashFn false now vst f =
      { catalog := UpdateStatusTx vst.catalog f.path "corrupted" now,
        summary := { vst.summary with
          totalChecked := vst.summary.totalChecked + 1,
          corrupted := vst.summary.corrupted + 1,
          errors := vst.summary.errors + 1 },
        callbacks := vst.callbacks ++
          [{ path := f.path, status := "corrupted", oldHash := f.sha256,
             newHash := "", err := some e2 }] }
    ∧ (∀ x ∈ UpdateStatusTx vst.catalog f.path "corrupted" now,
        ∃ x0 ∈ vst.catalog, x.path = x0.path ∧ x.sha256 = x0.sha256
          ∧ x.firstSeen = x0.firstSeen ∧ x.size = x0.size) := by
  refine ⟨?_, ?_, ?_⟩
  · simp only [processScanResult, hr]
  · simp only [verifyStep, hfd, hh]
  · intro x hx
    rcases List.mem_map.mp hx with ⟨x0, hx0, heq⟩
    by_cases hp : x0.path = f.path
    · rw [if_pos (beq_iff_eq.mpr hp)] at heq
      subst heq
      exact ⟨x0, hx0, rfl, rfl, rfl, rfl⟩
    · rw [if_neg (fun h => hp (beq_iff_eq.mp h))] at heq
      subst heq
      exact ⟨x0, hx0, rfl, rfl, rfl, rfl⟩

/-- C4 counterexample to the claim as stated: in a VERIFY run a hashing
error DOES write to the catalog — the prior ok record at the path is
flipped to status corrupted, so the file's prior catalog record is not
left unchanged. -/
theorem per_file_hash_error_counterexample :
    ((verifyStep (fun _ => StatOutcome.found 6 3)
        (fun _ => Except.error "read failed") false 9
        { catalog := [{ path := "/a/f", disk := "d1", size := 5,
                        mtime := 2, sha256 := "aa", firstSeen := 1,
                        lastVerified := 1, status := "ok" }],
          summary := { totalChecked := 0, ok := 0, corrupted := 0,
                       missing := 0, skipped := 0, errors := 0 },
          callbacks := [] }
        { path := "/a/f", disk := "d1", size := 5, mtime := 2,
          sha256 := "aa", firstSeen := 1, lastVerified := 1,
          status := "ok" }).catalog.map (fun x => x.status))
      = ["corrupted"]
    ∧ (verifyStep (fun _ => StatOutcome.found 6 3)
        (fun _ => Except.error "read failed") false 9
        { catalog := [{ path := "/a/f", disk := "d1", size := 5,
                        mtime := 2, sha256 := "aa", firstSeen := 1,
                        lastVerified := 1, status := "ok" }],
          summary := { totalChecked := 0, ok := 0, corrupted := 0,
                       missing := 0, skipped := 0, errors := 0 },
          callbacks := [] }
        { path := "/a/f", disk := "d1", size := 5, mtime := 2,
          sha256 := "aa", firstSeen := 1, lastVerified := 1,
          status := "ok" }).catalog
      ≠ [{ path := "/a/f", disk := "d1", size := 5, mtime := 2,
           sha256 := "aa", firstSeen := 1, lastVerified := 1,
           status := "ok" }] := by
  exact ⟨by decide, by decide⟩

/-- C4 witness: an errored scan result only bumps the counters, and an
errored verify hash flips the record to corrupted keeping its digest. -/
theorem per_file_hash_error_handling_witness :
    processScanResult (fun _ => StatOutcome.notExist) none 9
      { catalog := [], totalProcessed := 3, totalErrors := 1,
        moveWarnings := [] }
      { path := "/a/f", disk := "d1", size := 5, mtime := 2,
        sha256 := "", err := some "open failed" } =
      { catalog := [], totalProcessed := 4, totalErrors := 2,
        moveWarnings := [] }
    ∧ (∀ x ∈ UpdateStatusTx
        [{ path := "/a/f", disk := "d1", size := 5, mtime := 2,
           sha256 := "aa", firstSeen := 1, lastVerified := 1,
           status := "ok" }] "/a/f" "corrupted" 9,
        x.sha256 = "aa" ∧ x.firstSeen = 1) := by
  have h := per_file_hash_error_handling (fun _ => StatOutcome.found 6 3)
    none (fun _ => Except.error "read failed") 9
    { catalog := [], totalProcessed := 3, totalErrors := 1,
      moveWarnings := [] }
    { catalog := [{ path := "/a/f", disk := "d1", size := 5, mtime := 2,
                    sha256 := "aa", firstSeen := 1, lastVerified := 1,
                    status := "ok" }],
      summary := { totalChecked := 0, ok := 0, corrupted := 0,
                   missing := 0, skipped := 0, errors := 0 },
      callbacks := [] }
    { path := "/a/f", disk := "d1", size := 5, mtime := 2,
      sha256 := "", err := some "open failed" }
    { path := "/a/f", disk := "d1", size := 5, mtime := 2,
      sha256 := "aa", firstSeen := 1, lastVerified := 1, status := "ok" }
    "open failed" "read failed" rfl rfl rfl
  refine ⟨h.1, ?_⟩
  intro x hx
  rcases h.2.2 x hx with ⟨x0, hx0, _, hsha, hfs, _⟩
  simp only [List.mem_singleton] at hx0
  subst hx0
  exact ⟨hsha, hfs⟩

/-- C5: with quick mode on, a catalogued file whose live size and mtime
exactly match the stored record is only counted as skipped: the state is
otherwise untouched (no hashing — the right-hand side does not mention
`hashFn` —, no catalog write, no callback, not counted in
total-checked). -/
theorem verify_quick_skip (stat : String → StatOutcome)
    (hashFn : String → Except String String) (now : Nat)
    (st : VerifyState) (f : FileRecord)
    (h : stat f.path = .found f.size f.mtime) :
    verifyStep stat hashFn true now st f =
      { st with summary :=
          { st.summary with skipped := st.summary.skipped + 1 } } := by
  have hfd : verifyFeedDecision stat true f = .skippedQuick := by
    unfold verifyFeedDecision
    rw [h]
    simp
  simp only [verifyStep, hfd]

/-- C5 witness: matching size 5 and mtime 2 — only `skipped` moves. -/
theorem verify_quick_skip_witness :
    verifyStep (fun _ => StatOutcome.found 5 2) (fun _ => Except.ok "zz")
      true 9
      { catalog := [{ path := "/a/f", disk := "d1", size := 5, mtime := 2,
                      sha256 := "aa", firstSeen := 1, lastVerified := 1,
                      status := "ok" }],
        summary := { totalChecked := 0, ok := 0, corrupted := 0,
                     missing := 0, skipped := 0, errors := 0 },
        callbacks := [] }
      { path := "/a/f", disk := "d1", size := 5, mtime := 2,
        sha256 := "aa", firstSeen := 1, lastVerified := 1,
        status := "ok" } =
      { catalog := [{ path := "/a/f", disk := "d1", size := 5, mtime := 2,
                      sha256 := "aa", firstSeen := 1, lastVerified := 1,
                      status := "ok" }],
        summary := { totalChecked := 0, ok := 0, corrupted := 0,
                     missing := 0, skipped := 1, errors := 0 },
        callbacks := [] } := by
  rw [verify_quick_skip _ _ _ _ _ rfl]

/-! Claim C6: the incremental filter and second-scan idempotence. -/

/-- C6: a FileDescriptor whose path already has a catalog record with
identical size and mtime is marked to skip; consequently, when every
walked descriptor matches the catalog (an unchanged tree rescanned in
incremental mode), the filter forwards nothing, the skipped count equals
the total file count, and running the scan loop over the (empty) hashing
output leaves the catalog with zero new or updated writes. -/
theorem incremental_skip_and_idempotence
    (catalog : List FileRecord) (fis : List FileInfo)
    (fs : String → Option FSFile) (stat : String → StatOutcome) (now : Nat)
    (m : String → Option QuickLookup) (fi0 : FileInfo) (ql : QuickLookup)
    (hql : m fi0.path = some ql) (hsz : ql.size = fi0.size)
    (hmt : ql.mtime = fi0.mtime)
    (hall : ∀ fi ∈ fis, ∃ q, LoadQuickLookupMap catalog fi.path = some q
      ∧ q.size = fi.size ∧ q.mtime = fi.mtime) :
    shouldSkipIncremental (some m) fi0 = true
    ∧ incrementalFilter (some (LoadQuickLookupMap catalog)) fis
        = ([], fis.length)
    ∧ runScanResults stat (some (LoadQuickLookupMap catalog)) now
        { catalog := catalog, totalProcessed := 0, totalErrors := 0,
          moveWarnings := [] }
        (HashFiles fs
          (incrementalFilter (some (LoadQuickLookupMap catalog)) fis).1)
      = { catalog := catalog, totalProcessed := 0, totalErrors := 0,
          moveWarnings := [] } := by
  have hskip : ∀ fi ∈ fis,
      shouldSkipIncremental (some (LoadQuickLookupMap catalog)) fi = true := by
    intro fi hfi
    obtain ⟨q, hq, hqs, hqm⟩ := hall fi hfi
    simp [shouldSkipIncremental, hq, hqs, hqm]
  have hfilter :
      (incrementalFilter (some (LoadQuickLookupMap catalog)) fis).1 = [] :=
    List.filter_eq_nil_iff.mpr (fun a ha => by simp [hskip a ha])
  have hcount : fis.countP
      (fun fi => shouldSkipIncremental (some (LoadQuickLookupMap catalog)) fi)
      = fis.length :=
    List.countP_eq_length.mpr (fun a ha => hskip a ha)
  refine ⟨?_, ?_, ?_⟩
  · simp [shouldSkipIncremental, hql, hsz, hmt]
  · exact Prod.ext hfilter hcount
  · rw [hfilter]
    rfl

/-- C6 witness: a one-record catalog and a walked descriptor with the
same path, size and mtime — everything is skipped and nothing written. -/
theorem incremental_skip_and_idempotence_witness :
    shouldSkipIncremental
      (some (LoadQuickLookupMap
        [{ path := "/t/a", disk := "d1", size := 5, mtime := 2,
           sha256 := "aa", firstSeen := 1, lastVerified := 1,
           status := "ok" }]))
      { path := "/t/a", disk := "d1", size := 5, mtime := 2 } = true
    ∧ incrementalFilter
        (some (LoadQuickLookupMap
          [{ path := "/t/a", disk := "d1", size := 5, mtime := 2,
             sha256 := "aa", firstSeen := 1, lastVerified := 1,
             status := "ok" }]))
        [{ path := "/t/a", disk := "d1", size := 5, mtime := 2 }]
      = ([], 1)
    ∧ runScanResults (fun _ => StatOutcome.notExist)
        (some (LoadQuickLookupMap
          [{ path := "/t/a", disk := "d1", size := 5, mtime := 2,
             sha256 := "aa", firstSeen := 1, lastVerified := 1,
             status := "ok" }])) 9
        { catalog := [{ path := "/t/a", disk := "d1", size := 5, mtime := 2,
                        sha256 := "aa", firstSeen := 1, lastVerified := 1,
                        status := "ok" }],
          totalProcessed := 0, totalErrors := 0, moveWarnings := [] }
        (HashFiles (fun _ => none)
          (incrementalFilter
            (some (LoadQuickLookupMap
              [{ path := "/t/a", disk := "d1", size := 5, mtime := 2,
                 sha256 := "aa", firstSeen := 1, lastVerified := 1,
                 status := "ok" }]))
            [{ path := "/t/a", disk := "d1", size := 5, mtime := 2 }]).1)
      = { catalog := [{ path := "/t/a", disk := "d1", size := 5, mtime := 2,
                        sha256 := "aa", firstSeen := 1, lastVerified := 1,
                        status := "ok" }],
          totalProcessed := 0, totalErrors := 0, moveWarnings := [] } := by
  exact incremental_skip_and_idempotence
    [{ path := "/t/a", disk := "d1", size := 5, mtime := 2,
       sha256 := "aa", firstSeen := 1, lastVerified := 1, status := "ok" }]
    [{ path := "/t/a", disk := "d1", size := 5, mtime := 2 }]
    (fun _ => none) (fun _ => StatOutcome.notExist) 9
    (LoadQuickLookupMap
      [{ path := "/t/a", disk := "d1", size := 5, mtime := 2,
         sha256 := "aa", firstSeen := 1, lastVerified := 1, status := "ok" }])
    { path := "/t/a", disk := "d1", size := 5, mtime := 2 }
    { size := 5, mtime := 2, sha256 := "aa" }
    rfl rfl rfl
    (by
      intro fi hfi
      simp only [List.mem_singleton] at hfi
      subst hfi
      exact ⟨{ size := 5, mtime := 2, sha256 := "aa" }, rfl, rfl, rfl⟩)

/-! Claim C7: the walker's emission characterisation. -/

mutual
theorem walkEntry_iff (excl : List (String → Bool)) (disk : String)
    (path : String) (e : FSEntry) (fi : FileInfo) :
    fi ∈ walkEntry excl disk path e ↔ EmitsFrom excl disk path e fi := by
  cases e with
  | file n size mtime =>
    simp only [walkEntry]
    by_cases hx : excl.any (fun re => re path) = true
    · rw [if_pos hx]
      constructor
      · intro h
        exact absurd h (List.not_mem_nil fi)
      · intro h
        cases h with
        | file _ _ _ _ hx2 _ => exact absurd hx (by simp [hx2])
    · rw [if_neg hx]
      by_cases hs : size == 0
      · rw [if_pos hs]
        constructor
        · intro h
          exact absurd h (List.not_mem_nil fi)
        · intro h
          cases h with
          | file _ _ _ _ _ hs2 => exact absurd (by simpa using hs) hs2
      · rw [if_neg hs]
        constructor
        · intro h
          simp only [List.mem_singleton] at h
          subst h
          exact EmitsFrom.file path n size mtime (by simpa using hx)
            (by simpa using hs)
        · intro h
          cases h with
          | file _ _ _ _ _ _ => simp
  | special n =>
    simp only [walkEntry]
    constructor
    · intro h
      exact absurd h (List.not_mem_nil fi)
    · intro h
      cases h
  | dir n children =>
    simp only [walkEntry]
    by_cases hx : excl.any (fun re => re path) = true
    · rw [if_pos hx]
      constructor
      · intro h
        exact absurd h (List.not_mem_nil fi)
      · intro h
        cases h with
        | dir _ _ _ _ _ hx2 _ _ => exact absurd hx (by simp [hx2])
    · rw [if_neg hx]
      rw [walkList_iff excl disk path children fi]
      constructor
      · rintro ⟨e, he, hem⟩
        exact EmitsFrom.dir path n children e fi (by simpa using hx) he hem
      · intro h
        cases h with
        | dir _ _ _ e _ _ he hem => exact ⟨e, he, hem⟩
theorem walkList_iff (excl : List (String → Bool)) (disk : String)
    (parent : String) (l : FSList) (fi : FileInfo) :
    fi ∈ walkList excl disk parent l ↔
      ∃ e, FSMem e l
        ∧ EmitsFrom excl disk (parent ++ "/" ++ entryName e) e fi := by
  cases l with
  | nil =>
    simp only [walkList]
    constructor
    · intro h
      exact absurd h (List.not_mem_nil fi)
    · rintro ⟨e, he, _⟩
      cases he
  | cons e rest =>
    simp only [walkList, List.mem_append]
    rw [walkEntry_iff excl disk (parent ++ "/" ++ entryName e) e fi,
      walkList_iff excl disk parent rest fi]
    constructor
    · rintro (h | ⟨e2, he2, hem2⟩)
      · exact ⟨e, FSMem.head e rest, h⟩
      · exact ⟨e2, FSMem.tail e2 e rest he2, hem2⟩
    · rintro ⟨e2, he2, hem2⟩
      cases he2 with
      | head => exact Or.inl hem2
      | tail _ _ h2 => exact Or.inr ⟨e2, h2, hem2⟩
end

/-- C7: the walker emits exactly the regular, non-zero-byte,
non-excluded files reachable from the root — a descriptor is in the
walk output iff `EmitsFrom` derives it (regular file, no ancestor
directory excluded, own path not excluded, size nonzero) — and every
emitted descriptor has nonzero size, so a zero-byte file is never
emitted and hence never cataloged in either scan mode. -/
theorem EmitsFrom_size_ne_zero {excl : List (String → Bool)}
    {disk path : String} {e : FSEntry} {fi : FileInfo}
    (h : EmitsFrom excl disk path e fi) : fi.size ≠ 0 := by
  induction h with
  | file _ _ _ _ _ hs => exact hs
  | dir _ _ _ _ _ _ _ _ ih => exact ih

theorem walker_emits_exactly (excl : List (String → Bool))
    (disk path : String) (e : FSEntry) :
    (∀ fi, fi ∈ walkEntry excl disk path e ↔ EmitsFrom excl disk path e fi)
    ∧ (∀ fi ∈ walkEntry excl disk path e, fi.size ≠ 0) := by
  refine ⟨fun fi => walkEntry_iff excl disk path e fi, ?_⟩
  intro fi hfi
  exact EmitsFrom_size_ne_zero ((walkEntry_iff excl disk path e fi).mp hfi)

/-- C7 witness: a tree with a regular file, a zero-byte file, a symlink
and an excluded directory — only the regular file is emitted, and it is
also derivable by the specification predicate. -/
theorem walker_emits_exactly_witness :
    ({ path := "/root/a.txt", disk := "d1", size := 5, mtime := 2 } : FileInfo)
      ∈ walkEntry [fun s => s == "/root/skipme"] "d1" "/root"
        (.dir "root" (.cons (.file "a.txt" 5 2)
          (.cons (.file "empty.txt" 0 1)
            (.cons (.special "link")
              (.cons (.dir "skipme" (.cons (.file "hidden.txt" 3 1) .nil))
                .nil)))))
    ∧ EmitsFrom [fun s => s == "/root/skipme"] "d1" "/root"
        (.dir "root" (.cons (.file "a.txt" 5 2)
          (.cons (.file "empty.txt" 0 1)
            (.cons (.special "link")
              (.cons (.dir "skipme" (.cons (.file "hidden.txt" 3 1) .nil))
                .nil)))))
        { path := "/root/a.txt", disk := "d1", size := 5, mtime := 2 }
    ∧ ({ path := "/root/a.txt", disk := "d1", size := 5,
         mtime := 2 } : FileInfo).size ≠ 0 := by
  have hm : ({ path := "/root/a.txt", disk := "d1", size := 5,
               mtime := 2 } : FileInfo)
      ∈ walkEntry [fun s => s == "/root/skipme"] "d1" "/root"
        (.dir "root" (.cons (.file "a.txt" 5 2)
          (.cons (.file "empty.txt" 0 1)
            (.cons (.special "link")
              (.cons (.dir "skipme" (.cons (.file "hidden.txt" 3 1) .nil))
                .nil))))) := by decide
  exact ⟨hm,
    ((walker_emits_exactly [fun s => s == "/root/skipme"] "d1" "/root"
      (.dir "root" (.cons (.file "a.txt" 5 2)
        (.cons (.file "empty.txt" 0 1)
          (.cons (.special "link")
            (.cons (.dir "skipme" (.cons (.file "hidden.txt" 3 1) .nil))
              .nil)))))).1 _).mp hm,
    (walker_emits_exactly [fun s => s == "/root/skipme"] "d1" "/root"
      (.dir "root" (.cons (.file "a.txt" 5 2)
        (.cons (.file "empty.txt" 0 1)
          (.cons (.special "link")
            (.cons (.dir "skipme" (.cons (.file "hidden.txt" 3 1) .nil))
              .nil)))))).2 _ hm⟩

/-! Claim C8: the digest is a pure function of the file bytes. -/

/-- C8: the content digest is a pure function of the file's bytes:
whatever snapshot, path or entry point (`HashFile` re-stats,
`hashFileWithInfo` runs on another worker with caller-supplied stat
info), equal byte content yields the same digest, namely
`sha256Hex bytes`; and the bytes of "hello world\n" hash to the
well-known digest. -/
theorem digest_pure_function (fs1 fs2 : String → Option FSFile)
    (p1 : String) (fi : FileInfo) (f1 f2 : FSFile)
    (h1 : fs1 p1 = some f1) (h2 : fs2 fi.path = some f2)
    (hb : f1.bytes = f2.bytes) (hd1 : f1.isDir = false)
    (hd2 : f2.isDir = false) :
    (∃ r1, HashFile fs1 p1 = .ok r1 ∧ r1.sha256 = sha256Hex f1.bytes)
    ∧ (∃ r2, hashFileWithInfo fs2 fi = .ok r2
        ∧ r2.sha256 = sha256Hex f1.bytes)
    ∧ sha256Hex (asciiBytes "hello world\n")
      = "a948904f2f0f479b8f8197694b30184b0d2ed1c1cd2a1ec0fb85d299a192a447" := by
  refine ⟨?_, ?_, ?_⟩
  · refine ⟨{ path := p1, disk := "", size := f1.size, mtime := f1.mtime,
              sha256 := sha256Hex f1.bytes, err := none }, ?_, rfl⟩
    unfold HashFile
    rw [h1]
    simp [hd1]
  · refine ⟨{ path := fi.path, disk := fi.disk, size := fi.size,
              mtime := fi.mtime, sha256 := sha256Hex f2.bytes,
              err := none }, ?_, by rw [hb]⟩
    unfold hashFileWithInfo
    rw [h2]
    simp [hd2]
  · decide

/-- C8 witness: hashing the bytes of "hello world\n" through `HashFile`
at one path and through `hashFileWithInfo` at a different path yields
the same well-known digest. -/
theorem digest_pure_function_witness :
    ∃ r1 r2,
      HashFile (fun _ => some
          { bytes := asciiBytes "hello world\n", size := 12, mtime := 2,
            isDir := false }) "/x/a" = .ok r1
      ∧ hashFileWithInfo (fun _ => some
          { bytes := asciiBytes "hello world\n", size := 12, mtime := 2,
            isDir := false })
          { path := "/y/b", disk := "d2", size := 12, mtime := 2 } = .ok r2
      ∧ r1.sha256
        = "a948904f2f0f479b8f8197694b30184b0d2ed1c1cd2a1ec0fb85d299a192a447"
      ∧ r2.sha256 = r1.sha256 := by
  have h := digest_pure_function
    (fun _ => some { bytes := asciiBytes "hello world\n", size := 12,
                     mtime := 2, isDir := false })
    (fun _ => some { bytes := asciiBytes "hello world\n", size := 12,
                     mtime := 2, isDir := false })
    "/x/a" { path := "/y/b", disk := "d2", size := 12, mtime := 2 }
    { bytes := asciiBytes "hello world\n", size := 12, mtime := 2,
      isDir := false }
    { bytes := asciiBytes "hello world\n", size := 12, mtime := 2,
      isDir := false }
    rfl rfl rfl rfl rfl
  obtain ⟨⟨r1, hr1, hs1⟩, ⟨r2, hr2, hs2⟩, hv⟩ := h
  exact ⟨r1, r2, hr1, hr2, hs1.trans hv, hs2.trans hs1.symm⟩

end FileHasher
